import Mathlib

/-!
Verification development for the diagnostic verifier
(lib/Frontend/DiagnosticVerifier.cpp): the `-verify` mode that scans a
source buffer for `expected-error/warning/note` annotations, matches them
against captured diagnostics, reports discrepancies, and optionally
auto-applies fix-its.

Text is modelled as `List Char`; buffer positions and string offsets are
`Nat` byte offsets.  `StringRef` values that the C++ takes as suffixes of
the input buffer are represented by their start offset into the buffer.
-/

namespace DV

/-- Severity classification, mirroring `llvm::SourceMgr::DiagKind`
(DK_Error / DK_Warning / DK_Note). -/
inductive DiagKind where
  | error
  | warning
  | note
deriving DecidableEq, Repr

/-- Mirrors `getDiagKindString` (DiagnosticVerifier.cpp lines 59-65). -/
def getDiagKindString : DiagKind → List Char
  | .error => ("error".data)
  | .warning => ("warning".data)
  | .note => ("note".data)

/-- Mirrors `llvm::SMFixIt`: a replacement range (byte offsets into the
buffer standing for the `SMLoc` pointers) plus replacement text. -/
structure SMFixIt where
  start : Nat
  stop : Nat
  text : List Char
deriving DecidableEq, Repr

/-- Mirrors the fields of `llvm::SMDiagnostic` that the verifier consumes:
`getFilename`, `getLineNo` (an `int`), `getKind`, `getMessage`, `getLoc`
(a pointer, modelled as a byte offset) and `getFixIts`. -/
structure SMDiagnostic where
  filename : List Char
  line : Int
  kind : DiagKind
  message : List Char
  loc : Nat
  fixIts : List SMFixIt
deriving DecidableEq, Repr

/-- Diagnostics synthesized by the verifier itself via `addError`
(lines 182-188): location, message and optional fix-its.  Their kind is
always DK_Error and their other `SMDiagnostic` fields are unused. -/
structure Report where
  loc : Nat
  message : List Char
  fixIts : List SMFixIt
deriving DecidableEq, Repr

/-- Mirrors `struct ExpectedFixIt` (lines 26-31); `fixitLoc` is the byte
offset of the clause's opening braces. -/
structure ExpectedFixIt where
  fixitLoc : Nat
  startCol : Nat
  endCol : Nat
  text : List Char
deriving DecidableEq, Repr

/-- Mirrors `struct ExpectedDiagnosticInfo` (lines 33-56).  `loc` is the
byte offset of the `expected-` match; `messageRangeStart/End` bound the
raw text between the message's double braces; `lineNo` is stored reduced
mod 2^32 as the C++ `unsigned` field is. -/
structure ExpectedDiagnosticInfo where
  loc : Nat
  classification : DiagKind
  mayAppear : Bool
  messageRangeStart : Nat
  messageRangeEnd : Nat
  messageStr : List Char
  lineNo : Nat
  fixits : List ExpectedFixIt
deriving DecidableEq, Repr

/-! ## String primitives mirroring `llvm::StringRef` operations -/

/-- Mirrors `StringRef::find(StringRef)` on the remaining text: first index
at which `pat` occurs (the empty pattern occurs at 0), `none` for `npos`. -/
def findSub : List Char → List Char → Option Nat
  | [], pat => if pat.isEmpty then some 0 else none
  | c :: rest, pat =>
    if pat.isPrefixOf (c :: rest) then some 0 else (findSub rest pat).map (· + 1)

/-- Mirrors `StringRef::find(char)`. -/
def findIdxCh : List Char → Char → Option Nat
  | [], _ => none
  | c :: rest, ch => if c == ch then some 0 else (findIdxCh rest ch).map (· + 1)

/-- Mirrors `StringRef::find_last_of(set)`: index of the last character
drawn from `set`, `none` for `npos`. -/
def findLastOf : List Char → List Char → Option Nat
  | [], _ => none
  | c :: rest, set =>
    match findLastOf rest set with
    | some k => some (k + 1)
    | none => if set.contains c then some 0 else none

/-- Mirrors `StringRef::find_first_not_of(set)` combined with the clamping
`substr` that follows it in the source: the number of leading characters of
`l` drawn from `set` (equals `l.length` when all of `l` qualifies, matching
the way `substr(npos)` clamps to the end of the string). -/
def idxNotOf : List Char → List Char → Nat
  | [], _ => 0
  | c :: rest, set => if set.contains c then 1 + idxNotOf rest set else 0

/-- Mirrors `StringRef::slice(a, b)` including its clamping semantics:
`Start = min a size`, `End = min (max a b) size`. -/
def sliceL (l : List Char) (a b : Nat) : List Char :=
  let n := l.length
  let a' := min a n
  let b' := min (max a b) n
  (l.drop a').take (b' - a')

/-- Horizontal whitespace used by `find_first_not_of(" \t")` and
`ltrim(" \t")` in the scanner. -/
def hwsChars : List Char := [' ', '\t']

/-- Default whitespace set of `StringRef::trim` / `rtrim` / `ltrim`. -/
def wsChars : List Char := [' ', '\t', '\n', '\x0b', '\x0c', '\r']

/-- Mirrors `StringRef::rtrim()` with its default whitespace set. -/
def rtrimFull (l : List Char) : List Char :=
  ((l.reverse).dropWhile (fun c => wsChars.contains c)).reverse

/-- Mirrors `StringRef::trim()` with its default whitespace set. -/
def trimFull (l : List Char) : List Char :=
  rtrimFull (l.dropWhile (fun c => wsChars.contains c))

/-- Mirrors `StringRef::getAsInteger(10, x)` for an unsigned target:
parses a non-empty all-decimal-digit string; fails (returns `none`) on an
empty string, on any non-digit character (including a sign), and when the
value does not fit the 32-bit unsigned target. -/
def parseUInt32 (l : List Char) : Option Nat :=
  if l.isEmpty then none
  else if l.all (fun c => '0' ≤ c && c ≤ '9') then
    let v := l.foldl (fun acc c => acc * 10 + (c.toNat - 48)) 0
    if v < 4294967296 then some v else none
  else none

/-- Mirrors `StringRef::getAsInteger(10, x)` for a signed `int` target:
an optional leading minus sign, then decimal digits, range-checked against
32-bit `int`. -/
def parseInt32 (l : List Char) : Option Int :=
  match l with
  | '-' :: rest =>
    match parseUInt32 rest with
    | some v => if v ≤ 2147483648 then some (-(v : Int)) else none
    | none => none
  | _ =>
    match parseUInt32 l with
    | some v => if v < 2147483648 then some (v : Int) else none
    | none => none

/-- Reduction of an `unsigned` value to the `int` it converts to, for the
comparison `I->getLineNo() != (int)Expected.LineNo` (line 113). -/
def toInt32 (n : Nat) : Int :=
  if n % 4294967296 < 2147483648 then ((n % 4294967296 : Nat) : Int)
  else ((n % 4294967296 : Nat) : Int) - 4294967296

/-- Wrap-around of `unsigned` arithmetic for `Expected.LineNo += LineOffset`
(line 292). -/
def wrap32 (z : Int) : Nat := (z % 4294967296).toNat

/-- Mirrors `message.find(pat) != npos` (line 119): `pat` occurs in `l` as
a contiguous substring. -/
def hasSub (pat : List Char) : List Char → Bool
  | [] => pat.isEmpty
  | c :: rest => pat.isPrefixOf (c :: rest) || hasSub pat rest

/-- Mirrors `getColumnNumber` (lines 129-141): the size of the prefix up to
`off`, minus the index of the last `\r` or `\n` in that prefix when one
exists. -/
def getColumnNumber (buffer : List Char) (off : Nat) : Nat :=
  let upToLoc := buffer.take off
  match findLastOf upToLoc ['\r', '\n'] with
  | some newlinePos => upToLoc.length - newlinePos
  | none => upToLoc.length

/-- Modelled from the spec: the external source-location service
(`SM.getLineAndColumn`, declared in swift/Basic/SourceManager.h, not part
of this file) resolving a byte offset to its 1-based physical line, i.e.
one more than the number of newline characters preceding the offset. -/
def lineOfOffset (buffer : List Char) (off : Nat) : Nat :=
  1 + (buffer.take off).count '\n'

/-- Modelled from the spec: the external string-unescape utility
(`Lexer::getEncodedStringSegment`, declared in swift/Parse/Lexer.h, not
part of this file) that expands escape sequences in a message pattern; a
backslash followed by a character is decoded to that character (with `n`,
`t`, `r`, `0` giving the usual control characters), and text free of
backslashes is returned unchanged. -/
def getEncodedStringSegment : List Char → List Char
  | '\\' :: 'n' :: rest => '\n' :: getEncodedStringSegment rest
  | '\\' :: 't' :: rest => '\t' :: getEncodedStringSegment rest
  | '\\' :: 'r' :: rest => '\r' :: getEncodedStringSegment rest
  | '\\' :: '0' :: rest => '\x00' :: getEncodedStringSegment rest
  | '\\' :: c :: rest => c :: getEncodedStringSegment rest
  | c :: rest => c :: getEncodedStringSegment rest
  | [] => []

/-- Mirrors the literal `\n` decoding loop for fix-it replacement text
(lines 360-370): only the two-character sequence backslash-`n` is decoded,
everything else is copied verbatim. -/
def decodeFixText : List Char → List Char
  | '\\' :: 'n' :: rest => '\n' :: decodeFixText rest
  | c :: rest => c :: decodeFixText rest
  | [] => []

/-! ## The annotation scanner (verifyFile, lines 191-378)

The scanner walks the buffer looking for the literal text `expected-`;
each candidate is handled by `processMatch` below.  A suffix `StringRef`
of the input (`MatchStart`, `ExtraChecks`, ...) is represented by its
start offset into the buffer. -/

/-- Mirrors the severity-keyword dispatch (lines 200-210): the matched
classification and the keyword's length, or `none` when the text after
`expected-` is not one of the three keywords (the C++ `continue`). -/
def parseSeverity (rest : List Char) : Option (DiagKind × Nat) :=
  if ("expected-note".data).isPrefixOf rest then some (.note, 13)
  else if ("expected-warning".data).isPrefixOf rest then some (.warning, 16)
  else if ("expected-error".data).isPrefixOf rest then some (.error, 14)
  else none

/-- Result of the optional `@+N`/`@-N` clause (lines 222-249): either a
malformed-annotation report, or the resynchronized position `q` of
`MatchStart`, the new relative index `t` of the opening braces, and the
parsed signed line offset. -/
inductive OffsetParse where
  | err (r : Report)
  | ok (q : Nat) (t : Nat) (off : Int)
deriving DecidableEq, Repr

/-- Mirrors the final `Offs.getAsInteger(10, LineOffset)` check of the
offset clause (lines 245-248); the error is anchored at the already
resynchronized `MatchStart`. -/
def finishOffsetParse (q' t' : Nat) (offs : List Char) : OffsetParse :=
  match parseInt32 offs with
  | none => .err ⟨q', ("expected line offset before '\x7b\x7b'".data), []⟩
  | some off => .ok q' t' off

/-- Mirrors the space-splitting resynchronization of the offset clause
(lines 234-243): a space inside `Offs` means a count clause follows the
offset, so `MatchStart` advances to the count and `TextStartIdx` shrinks
to `Delta`; otherwise `MatchStart` advances to the opening braces. -/
def parseOffsetRest (q t : Nat) (offs : List Char) : OffsetParse :=
  match findIdxCh offs ' ' with
  | some spaceIndex =>
    if spaceIndex < t then
      let delta := offs.length - spaceIndex
      finishOffsetParse (q + (t - delta)) delta (sliceL offs 0 spaceIndex)
    else finishOffsetParse (q + t) 0 offs
  | none => finishOffsetParse (q + t) 0 offs

/-- Mirrors the whole optional line-offset clause (lines 222-249), with
`q` the position of `MatchStart` and `t` the relative index of the opening
braces (`TextStartIdx`). -/
def parseOffsetClause (buffer : List Char) (q t : Nat) : OffsetParse :=
  if t > 0 && (buffer[q]? == some '@') then
    match buffer[q + 1]? with
    | some '+' => parseOffsetRest q t (rtrimFull (sliceL (buffer.drop q) 2 t))
    | some '-' => parseOffsetRest q t (rtrimFull (sliceL (buffer.drop q) 1 t))
    | _ => .err ⟨q, ("expected '+'/'-' for line offset".data), []⟩
  else .ok q t 0

/-- Result of the multiplicity clause (lines 253-272): either a
malformed-annotation report, or the `mayAppear` flag, the count, and the
position of the opening braces after the resynchronization
`MatchStart = MatchStart.substr(TextStartIdx)`. -/
inductive CountParse where
  | err (r : Report)
  | ok (mayApp : Bool) (count : Nat) (q : Nat)
deriving DecidableEq, Repr

/-- Mirrors the multiplicity clause (lines 253-272): text before the
opening braces is either `*` (wildcard, count stays 1) or a positive
decimal count; a parse failure or an explicit zero count each degrade to
a report anchored at `MatchStart`. -/
def parseCountClause (buffer : List Char) (q t : Nat) : CountParse :=
  if t > 0 then
    let countStr := trimFull (sliceL (buffer.drop q) 0 t)
    if countStr = ['*'] then .ok true 1 (q + t)
    else
      match parseUInt32 countStr with
      | none => .err ⟨q, ("expected match count before '\x7b\x7b'".data), []⟩
      | some 0 => .err ⟨q, ("expected positive match count before '\x7b\x7b'".data), []⟩
      | some (Nat.succ c) => .ok false (Nat.succ c) (q + t)
  else .ok false 1 q

/-- Mirrors the close-brace look-ahead loop (lines 315-316): while the
character two past `endLoc` is another closing brace, extend `endLoc` so
replacement text may itself contain braces.  `fuel` bounds the loop by the
text length. -/
def extendBraces (l : List Char) (endLoc : Nat) : Nat → Nat
  | 0 => endLoc
  | fuel + 1 =>
    if endLoc + 2 < l.length ∧ l[endLoc + 2]? = some '}' then extendBraces l (endLoc + 1) fuel
    else endLoc

/-- Mirrors the parsing of one fix-it clause body (lines 329-372): the
column pair and replacement text of `\x7b\x7bstart-end=text\x7d\x7d`, or the
malformed-annotation report of the first failing piece.  `pos` is the
offset of the clause's opening braces and `endLoc` the relative index of
its closing braces. -/
def parseFixItPieces (fixStr : List Char) (pos : Nat) (endLoc : Nat) :
    Sum Report ExpectedFixIt :=
  match findIdxCh fixStr '-' with
  | none => .inl ⟨pos + 2, ("expected '-' in fix-it verification".data), []⟩
  | some minusLoc =>
    let startColStr := sliceL fixStr 0 minusLoc
    let afterMinus := fixStr.drop (minusLoc + 1)
    match findIdxCh afterMinus '=' with
    | none => .inl ⟨pos + 2 + minusLoc + 1, ("expected '=' after '-' in fix-it verification".data), []⟩
    | some equalLoc =>
      let endColStr := sliceL afterMinus 0 equalLoc
      let afterEqual := afterMinus.drop (equalLoc + 1)
      match parseUInt32 startColStr with
      | none => .inl ⟨pos + 2, ("invalid column number in fix-it verification".data), []⟩
      | some sc =>
        match parseUInt32 endColStr with
        | none => .inl ⟨pos + 2 + minusLoc + 1, ("invalid column number in fix-it verification".data), []⟩
        | some ec => .inr ⟨pos, sc, ec, decodeFixText (sliceL afterEqual 0 endLoc)⟩

/-- Mirrors the fix-it clause while-loop (lines 303-373).  A missing
closing brace pair, or one only found on a later line, aborts the loop
(`break`); a malformed clause body degrades to a report and scanning of
further clauses continues (`continue`).  `pos` plays `ExtraChecks`;
the advance past the clause happens before the body is parsed, exactly as
in the source. -/
def scanFixIts (buffer : List Char) :
    Nat → Nat → List ExpectedFixIt → List Report → List ExpectedFixIt × List Report
  | 0, _, acc, errs => (acc, errs)
  | fuel + 1, pos, acc, errs =>
    if ("\x7b\x7b".data).isPrefixOf (buffer.drop pos) then
      match findSub (buffer.drop pos) ("\x7d\x7d".data) with
      | none => (acc, errs ++ [⟨pos, ("didn't find '\x7d\x7d' to match '\x7b\x7b' in fix-it verification".data), []⟩])
      | some e1 =>
        let e2 := extendBraces (buffer.drop pos) e1 (buffer.length)
        let fixStr := sliceL (buffer.drop pos) 2 e2
        if fixStr.any (fun c => c == '\r' || c == '\n') then
          (acc, errs ++ [⟨pos, ("didn't find '\x7d\x7d' to match '\x7b\x7b' in fix-it verification".data), []⟩])
        else
          let nextPos := pos + e2 + 2 + idxNotOf (buffer.drop (pos + e2 + 2)) wsChars
          match parseFixItPieces fixStr pos e2 with
          | .inl r => scanFixIts buffer fuel nextPos acc (errs ++ [r])
          | .inr f => scanFixIts buffer fuel nextPos (acc ++ [f]) errs
    else (acc, errs)

/-- Outcome of handling one `expected-` candidate: reports produced,
expectations pushed (the count-many copies of line 375-377), and the new
continuation line (`PrevExpectedContinuationLine` after this candidate). -/
structure ScanStepResult where
  errs : List Report
  toPush : List ExpectedDiagnosticInfo
  newCont : Nat
deriving DecidableEq, Repr

/-- Mirrors the body of the scanner loop for one `expected-` match at
offset `m` (lines 196-377).  Early `continue` paths leave
`PrevExpectedContinuationLine` untouched; the continuation check happens
right after the message's closing braces (lines 294-300), before the
fix-it clauses are scanned. -/
def processMatch (buffer : List Char) (m : Nat) (prevCont : Nat) : ScanStepResult :=
  match parseSeverity (buffer.drop m) with
  | none => ⟨[], [], prevCont⟩
  | some (kind, kwLen) =>
    let q1 := m + kwLen + idxNotOf (buffer.drop (m + kwLen)) hwsChars
    match findSub (buffer.drop q1) ("\x7b\x7b".data) with
    | none => ⟨[⟨q1, ("expected \x7b\x7b in expected-warning/note/error line".data), []⟩], [], prevCont⟩
    | some t =>
      match parseOffsetClause buffer q1 t with
      | .err r => ⟨[r], [], prevCont⟩
      | .ok q2 t2 lineOff =>
        match parseCountClause buffer q2 t2 with
        | .err r => ⟨[r], [], prevCont⟩
        | .ok mayApp count q3 =>
          match findSub (buffer.drop q3) ("\x7d\x7d".data) with
          | none => ⟨[⟨q3, ("didn't find '\x7d\x7d' to match '\x7b\x7b' in expected-warning/note/error line".data), []⟩], [], prevCont⟩
          | some endRel =>
            let msgStart := q3 + 2
            let msgEnd := q3 + endRel
            let msgStr := getEncodedStringSegment (sliceL (buffer.drop q3) 2 endRel)
            let base : Nat := if prevCont ≠ 0 then prevCont else lineOfOffset buffer q3
            let lineNo := wrap32 ((base : Int) + lineOff)
            let a0 := q3 + endRel + 2
            let a1 := a0 + idxNotOf (buffer.drop a0) hwsChars
            let newCont := if buffer[a1]? = some '\\' then lineNo else 0
            let (fixits, ferrs) := scanFixIts buffer (buffer.length + 1) a1 [] []
            ⟨ferrs, List.replicate count ⟨m, kind, mayApp, msgStart, msgEnd, msgStr, lineNo, fixits⟩, newCont⟩

/-- Mirrors `InputFile.find("expected-", Match+1)`: next candidate at or
after `start`. -/
def findSubFrom (buffer pat : List Char) (start : Nat) : Option Nat :=
  (findSub (buffer.drop start) pat).map (start + ·)

/-- Mirrors the scanner's outer for-loop (lines 192-378); the next search
always resumes one past the previous match, so `buffer.length + 1` fuel
covers every iteration. -/
def scanLoop (buffer : List Char) :
    Nat → Nat → Nat → List Report → List ExpectedDiagnosticInfo →
    List Report × List ExpectedDiagnosticInfo
  | 0, _, _, errs, eds => (errs, eds)
  | fuel + 1, start, prevCont, errs, eds =>
    match findSubFrom buffer ("expected-".data) start with
    | none => (errs, eds)
    | some m =>
      let r := processMatch buffer m prevCont
      scanLoop buffer fuel (m + 1) r.newCont (errs ++ r.errs) (eds ++ r.toPush)

/-- The scanning stage of `verifyFile`: all malformed-annotation reports
and all `ExpectedDiagnosticInfo` records in buffer order. -/
def scanAnnotations (buffer : List Char) : List Report × List ExpectedDiagnosticInfo :=
  scanLoop buffer (buffer.length + 1) 0 0 [] []

/-! ## The matcher (verifyFile, lines 380-510)

The source reverses the expectation list (line 382) and then, in phases
one and two, iterates the index downward with in-place erasure only at the
current index.  Iterating a reversed list from its highest index to its
lowest visits the expectations in their original scan order, and erasing
at the current index never disturbs the not-yet-visited lower indices, so
both phases are encoded structurally over the scan-ordered list.  The
wildcard `++i` retry of lines 434-435 becomes the inner loop
`consumeWildcard`; a wildcard expectation always leaves phase one erased
(line 394 when no match remains). -/

/-- Mirrors the match test inside `findDiagnostic` (lines 112-120):
identical line, identical file identifier, identical classification, and
message containing the expectation's decoded text. -/
def matchesB (bufferName : List Char) (e : ExpectedDiagnosticInfo) (d : SMDiagnostic) : Bool :=
  d.line == toInt32 e.lineNo && d.filename == bufferName &&
  d.kind == e.classification && hasSub e.messageStr d.message

/-- Index of the first list entry satisfying `p`, `none` when there is
none: the common shape of the two linear pool searches of the source
(lines 110-124 and lines 448-458). -/
def findIdxBy (p : SMDiagnostic → Bool) : List SMDiagnostic → Option Nat
  | [] => none
  | d :: rest => if p d then some 0 else (findIdxBy p rest).map (· + 1)

/-- Mirrors `DiagnosticVerifier::findDiagnostic` (lines 107-127): index of
the first pool entry matching the expectation, `none` for `end()`. -/
def findDiagnostic (bufferName : List Char) (e : ExpectedDiagnosticInfo)
    (CD : List SMDiagnostic) : Option Nat :=
  findIdxBy (matchesB bufferName e) CD

/-- Mirrors `checkForFixIt` (lines 145-162). -/
def checkForFixIt (buffer : List Char) (f : ExpectedFixIt) (d : SMDiagnostic) : Bool :=
  d.fixIts.any (fun af =>
    af.text == f.text && getColumnNumber buffer af.start == f.startCol &&
    getColumnNumber buffer af.stop == f.endCol)

/-- Mirrors the "expected fix-it not seen" message assembly
(lines 403-421), listing the found diagnostic's actual fix-its. -/
def fixitNotSeenMessage (buffer : List Char) (d : SMDiagnostic) : List Char :=
  ("expected fix-it not seen".data) ++
  (if d.fixIts.isEmpty then [] else
    ("; actual fix-its:".data) ++
    ((d.fixIts.map (fun af =>
      (" \x7b\x7b".data) ++ ((Nat.repr (getColumnNumber buffer af.start)).data) ++ ['-'] ++
      ((Nat.repr (getColumnNumber buffer af.stop)).data) ++ ['='] ++ af.text ++
      ("\x7d\x7d".data))).flatten))

/-- Mirrors the fix-it verification against a found diagnostic
(lines 400-425): one report per expected fix-it absent from it. -/
def unmatchedFixitReports (buffer : List Char) (e : ExpectedDiagnosticInfo) (d : SMDiagnostic) :
    List Report :=
  (e.fixits.filter (fun f => !(checkForFixIt buffer f d))).map
    (fun f => ⟨f.fixitLoc, fixitNotSeenMessage buffer d, []⟩)

/-- Mirrors the wildcard retry of phase one (lines 388-438 with the `++i`
of line 435): a `mayAppear` expectation keeps matching and consuming pool
entries, checking its fix-its against each, until no match remains. -/
def consumeWildcard (buffer bufferName : List Char) (e : ExpectedDiagnosticInfo)
    (CD : List SMDiagnostic) (errs : List Report) : List SMDiagnostic × List Report :=
  match findDiagnostic bufferName e CD with
  | none => (CD, errs)
  | some j =>
    match h2 : CD[j]? with
    | none => (CD, errs)
    | some d =>
      consumeWildcard buffer bufferName e (CD.eraseIdx j)
        (errs ++ unmatchedFixitReports buffer e d)
termination_by CD.length
decreasing_by
  have hj := (List.getElem?_eq_some.mp h2).1
  rw [List.length_eraseIdx, if_pos hj]
  omega

/-- Mirrors phase one of the matcher (lines 384-438) structurally over the
scan-ordered expectation list: a found diagnostic has the expectation's
fix-its verified against it and is erased from the pool; a non-wildcard
expectation is then erased, a wildcard retries; a wildcard without a match
is erased silently, a non-wildcard without a match is kept for the later
phases. -/
def phase1 (buffer bufferName : List Char) :
    List ExpectedDiagnosticInfo → List SMDiagnostic → List Report →
    List ExpectedDiagnosticInfo × List SMDiagnostic × List Report
  | [], CD, errs => ([], CD, errs)
  | e :: rest, CD, errs =>
    if e.mayAppear then
      let (CD', errs') := consumeWildcard buffer bufferName e CD errs
      phase1 buffer bufferName rest CD' errs'
    else
      match findDiagnostic bufferName e CD with
      | none =>
        let (ed', CD', errs') := phase1 buffer bufferName rest CD errs
        (e :: ed', CD', errs')
      | some j =>
        match CD[j]? with
        | none =>
          let (ed', CD', errs') := phase1 buffer bufferName rest CD errs
          (e :: ed', CD', errs')
        | some d =>
          phase1 buffer bufferName rest (CD.eraseIdx j)
            (errs ++ unmatchedFixitReports buffer e d)

/-- Mirrors the phase-two pool search (lines 448-458): identical line,
file identifier and classification, message ignored. -/
def lineKindMatchesB (bufferName : List Char) (e : ExpectedDiagnosticInfo) (d : SMDiagnostic) : Bool :=
  d.line == toInt32 e.lineNo && d.filename == bufferName && d.kind == e.classification

/-- Index of the first pool entry matching line, file and classification. -/
def findDiagLineKind (bufferName : List Char) (e : ExpectedDiagnosticInfo)
    (CD : List SMDiagnostic) : Option Nat :=
  findIdxBy (lineKindMatchesB bufferName e) CD

/-- Mirrors phase two of the matcher (lines 442-469) structurally over the
scan-ordered remaining expectations: a pool entry agreeing on line, file
and classification but not claimed in phase one yields an
"incorrect message found" report anchored at the message-pattern span and
carrying a fix-it replacing that span with the actual message; both the
entry and the expectation are removed. -/
def phase2 (bufferName : List Char) :
    List ExpectedDiagnosticInfo → List SMDiagnostic → List Report →
    List ExpectedDiagnosticInfo × List SMDiagnostic × List Report
  | [], CD, errs => ([], CD, errs)
  | e :: rest, CD, errs =>
    match findDiagLineKind bufferName e CD with
    | none =>
      let (ed', CD', errs') := phase2 bufferName rest CD errs
      (e :: ed', CD', errs')
    | some j =>
      match CD[j]? with
      | none =>
        let (ed', CD', errs') := phase2 bufferName rest CD errs
        (e :: ed', CD', errs')
      | some d =>
        phase2 bufferName rest (CD.eraseIdx j)
          (errs ++ [⟨e.messageRangeStart, ("incorrect message found".data),
                     [⟨e.messageRangeStart, e.messageRangeEnd, d.message⟩]⟩])

/-- Mirrors the "expected ... not produced" report of phase three
(lines 475-479). -/
def notProducedReport (e : ExpectedDiagnosticInfo) : Report :=
  ⟨e.loc, ("expected ".data) ++ getDiagKindString e.classification ++ (" not produced".data), []⟩

/-- Mirrors the "unexpected ... produced" report of phase three
(lines 482-491). -/
def unexpectedReport (d : SMDiagnostic) : Report :=
  ⟨d.loc, ("unexpected ".data) ++ getDiagKindString d.kind ++ (" produced: ".data) ++ d.message, []⟩

/-- Mirrors the final `std::sort` by location (lines 496-500); the
unstable sort of the source is refined to a stable one, which agrees with
it whenever report locations are distinct. -/
def sortReports (errs : List Report) : List Report :=
  List.insertionSort (fun a b : Report => a.loc ≤ b.loc) errs

/-- The matcher part of `verifyFile` (lines 380-510): phases one to three
over one buffer's expectations, starting from the reports `errs0` already
produced by the scanner; returns the sorted reports and the pool as it is
left for later buffers. -/
def matchAndReport (buffer bufferName : List Char)
    (expectedDiagnostics : List ExpectedDiagnosticInfo)
    (capturedDiagnostics : List SMDiagnostic) (errs0 : List Report) :
    List Report × List SMDiagnostic :=
  let r1 := phase1 buffer bufferName expectedDiagnostics capturedDiagnostics errs0
  let r2 := phase2 bufferName r1.1 r1.2.1 r1.2.2
  let errs3 := r2.2.2 ++ r2.1.map notProducedReport ++
    ((r2.2.1.filter (fun d => d.filename == bufferName)).map unexpectedReport)
  (sortReports errs3, r2.2.1)

/-- Mirrors `DiagnosticVerifier::verifyFile` (lines 167-511) for one
buffer: scan the annotations, then reconcile them against the captured
pool; returns the sorted report diagnostics and the remaining pool. -/
def verifyFile (buffer bufferName : List Char) (capturedDiagnostics : List SMDiagnostic) :
    List Report × List SMDiagnostic :=
  let s := scanAnnotations buffer
  matchAndReport buffer bufferName s.2 capturedDiagnostics s.1

/-! ## The fix applier (autoApplyFixes, lines 516-563) -/

/-- Outcome of `autoApplyFixes`: the file left untouched (no fix-its at
all, lines 524-526), the fatal overlapping-fix-its assertion
(lines 544-546), or the rewritten buffer text. -/
inductive ApplyOutcome where
  | untouched
  | fatal
  | written (text : List Char)
deriving DecidableEq, Repr

/-- Mirrors the fix-it collection walk (lines 520-522). -/
def collectFixIts (diags : List Report) : List SMFixIt :=
  ((diags.map (fun d => d.fixIts)).flatten)

/-- Mirrors the `std::sort` by start location (lines 528-533), refined to
a stable sort. -/
def sortFixIts (fixIts : List SMFixIt) : List SMFixIt :=
  List.insertionSort (fun a b : SMFixIt => a.start ≤ b.start) fixIts

/-- Mirrors the rewrite loop (lines 540-559): copy from the cursor to each
fix-it's start, append its replacement text, continue from its end, and
finally retain the tail of the buffer.  The overlap assertion of
lines 544-546 becomes the `none` outcome. -/
def applyWalk (buffer : List Char) (lastPos : Nat) : List SMFixIt → Option (List Char)
  | [] => some (buffer.drop lastPos)
  | f :: rest =>
    if lastPos ≤ f.start then
      (applyWalk buffer f.stop rest).map
        (fun tail => sliceL buffer lastPos f.start ++ f.text ++ tail)
    else none

/-- Mirrors `DiagnosticVerifier::autoApplyFixes` (lines 516-563). -/
def autoApplyFixes (buffer : List Char) (diags : List Report) : ApplyOutcome :=
  let fixIts := collectFixIts diags
  if fixIts.isEmpty then .untouched
  else
    match applyWalk buffer 0 (sortFixIts fixIts) with
    | none => .fatal
    | some result => .written result

/-! ## Specification-side definitions

Definitions below follow the wording of the specification rather than the
source; the theorems compare them against the source-derived definitions
above. -/

/-- Follows the spec's matching criterion for phase one: identical file
identifier, identical resolved line number, identical severity, and a
message containing the expectation's decoded message text as a contiguous
substring. -/
def claimMatch (bufferName : List Char) (e : ExpectedDiagnosticInfo) (d : SMDiagnostic) : Prop :=
  d.filename = bufferName ∧ d.line = toInt32 e.lineNo ∧ d.kind = e.classification ∧
  ∃ p s, d.message = p ++ e.messageStr ++ s

/-- Follows the spec's matching criterion for phase two: file identifier,
line number and severity only, message ignored. -/
def claimLineKind (bufferName : List Char) (e : ExpectedDiagnosticInfo) (d : SMDiagnostic) : Prop :=
  d.filename = bufferName ∧ d.line = toInt32 e.lineNo ∧ d.kind = e.classification

/-- Follows the claim's description of the fix applier's walk: with a
cursor, copy verbatim text up to each fix-it's start offset, append its
replacement text, advance the cursor to its end offset, and finally copy
the remainder of the buffer. -/
def specApplyWalk (buffer : List Char) (cursor : Nat) : List SMFixIt → List Char
  | [] => buffer.drop cursor
  | f :: rest =>
    (buffer.drop cursor).take (f.start - cursor) ++ f.text ++ specApplyWalk buffer f.stop rest

/-- Cursor-relative non-overlap of a fix-it list: each start offset is at
least the cursor, which then advances to the fix-it's end offset. -/
def nonOverlapB (cursor : Nat) : List SMFixIt → Bool
  | [] => true
  | f :: rest => decide (cursor ≤ f.start) && nonOverlapB f.stop rest

/-! ## Concrete demonstration inputs -/

/-- The spec's concrete scenario buffer. -/
def demoBuf : List Char := ("let x = 1 // expected-error \x7b\x7btype mismatch\x7d\x7d".data)

/-- A buffer identifier for the demonstrations. -/
def demoName : List Char := ("test.swift".data)

/-- A captured diagnostic whose message strictly extends the expected text. -/
def demoDiagMatch : SMDiagnostic :=
  ⟨demoName, 1, .error, ("type mismatch: Int vs String".data), 0, []⟩

/-- A captured diagnostic agreeing on file, line and severity but with an
unrelated message. -/
def demoDiagWrong : SMDiagnostic :=
  ⟨demoName, 1, .error, ("unrelated issue".data), 0, []⟩

/-- A buffer whose annotation carries an explicit multiplicity of three. -/
def countBuf : List Char := ("f() // expected-error 3 \x7b\x7bundeclared use\x7d\x7d\n".data)

/-- The expectation the scanner produces three copies of for `countBuf`. -/
def countExp : ExpectedDiagnosticInfo :=
  ⟨7, .error, false, 26, 40, ("undeclared use".data), 1, []⟩

/-- A two-line buffer whose first annotation has a fix-it clause followed
by a trailing backslash, and whose second annotation sits on line two. -/
def contFixitBuf : List Char :=
  ("x // expected-error \x7b\x7bm\x7d\x7d \x7b\x7b1-2=y\x7d\x7d \\\ny // expected-error \x7b\x7bn\x7d\x7d\n".data)

/-- A two-line buffer whose first annotation's message braces are followed
directly by a trailing backslash, and whose second annotation sits on line
two. -/
def contPlainBuf : List Char :=
  ("x // expected-error \x7b\x7bm\x7d\x7d \\\ny // expected-error \x7b\x7bn\x7d\x7d\n".data)

/-- Two annotations on the same physical line, the first followed by a
trailing backslash. -/
def contSameLineBuf : List Char :=
  ("x // expected-error \x7b\x7bm\x7d\x7d \\ expected-warning \x7b\x7bn\x7d\x7d\ny\n".data)

/-- A buffer whose annotation carries an explicit multiplicity of zero. -/
def zeroCountBuf : List Char := ("x // expected-error 0 \x7b\x7bm\x7d\x7d".data)

/-- The expectation the scanner derives from `demoBuf`. -/
def demoExp : ExpectedDiagnosticInfo :=
  ⟨13, .error, false, 30, 43, ("type mismatch".data), 1, []⟩

/-- A wildcard variant of the demonstration expectation. -/
def wildExp : ExpectedDiagnosticInfo :=
  ⟨13, .error, true, 30, 43, ("type mismatch".data), 1, []⟩

/-- A pool entry addressed to the buffer under verification. -/
def frameDiagHere : SMDiagnostic := ⟨("a.swift".data), 3, .warning, ("w1".data), 9, []⟩

/-- A pool entry addressed to another buffer. -/
def frameDiagOther : SMDiagnostic := ⟨("b.swift".data), 4, .note, ("n1".data), 2, []⟩

/-- A report carrying one concrete fix-it. -/
def applyDemoDiags : List Report := [⟨0, ("m".data), [⟨1, 3, ("XY".data)⟩]⟩]

/-- Two overlapping fix-its attached to one report. -/
def overlapDemoDiags : List Report := [⟨0, ("m".data), [⟨0, 5, ("A".data)⟩, ⟨3, 6, ("B".data)⟩]⟩]

/-! ## Helper lemmas -/

lemma findIdxBy_iff (p : SMDiagnostic → Bool) (l : List SMDiagnostic) (j : Nat) :
    findIdxBy p l = some j ↔
      ((∃ d, l[j]? = some d ∧ p d = true) ∧
       ∀ k, k < j → ∀ d, l[k]? = some d → p d = false) := by
  induction l generalizing j with
  | nil => simp [findIdxBy]
  | cons c rest ih =>
    simp only [findIdxBy]
    by_cases hc : p c = true
    · rw [if_pos hc]
      constructor
      · intro h
        have hj : j = 0 := (Option.some.inj h).symm
        subst hj
        exact ⟨⟨c, by simp, hc⟩, fun k hk => absurd hk (Nat.not_lt_zero k)⟩
      · rintro ⟨⟨d, hd, hpd⟩, hmin⟩
        by_cases hj : j = 0
        · subst hj; rfl
        · have h0 := hmin 0 (Nat.pos_of_ne_zero hj) c (by simp)
          rw [hc] at h0
          exact absurd h0 (by simp)
    · have hc' : p c = false := by
        cases hpc : p c with
        | false => rfl
        | true => exact absurd hpc hc
      rw [if_neg hc]
      constructor
      · intro h
        obtain ⟨j', hj', rfl⟩ := Option.map_eq_some'.mp h
        obtain ⟨⟨d, hd, hpd⟩, hmin⟩ := (ih (j := j')).mp hj'
        refine ⟨⟨d, by simpa using hd, hpd⟩, ?_⟩
        intro k hk d' hd'
        cases k with
        | zero =>
          simp only [List.getElem?_cons_zero, Option.some.injEq] at hd'
          subst hd'
          exact hc'
        | succ k' =>
          exact hmin k' (by omega) d' (by simpa using hd')
      · rintro ⟨⟨d, hd, hpd⟩, hmin⟩
        cases j with
        | zero =>
          simp only [List.getElem?_cons_zero, Option.some.injEq] at hd
          subst hd
          exact absurd hpd (by simp [hc'])
        | succ j' =>
          have hrest : findIdxBy p rest = some j' := by
            refine (ih (j := j')).mpr ⟨⟨d, by simpa using hd, hpd⟩, ?_⟩
            intro k hk d' hd'
            exact hmin (k + 1) (by omega) d' (by simpa using hd')
          simp [hrest]

lemma findIdxBy_none_iff (p : SMDiagnostic → Bool) (l : List SMDiagnostic) :
    findIdxBy p l = none ↔ ∀ d ∈ l, p d = false := by
  induction l with
  | nil => simp [findIdxBy]
  | cons c rest ih =>
    simp only [findIdxBy]
    by_cases hc : p c = true
    · simp [hc]
    · have hc' : p c = false := by
        cases hpc : p c with
        | false => rfl
        | true => exact absurd hpc hc
      simp [hc', ih]

lemma findIdxBy_some_elem (p : SMDiagnostic → Bool) (l : List SMDiagnostic) (j : Nat)
    (h : findIdxBy p l = some j) : ∃ d, l[j]? = some d ∧ p d = true :=
  ((findIdxBy_iff p l j).mp h).1

lemma hasSub_iff (pat l : List Char) :
    hasSub pat l = true ↔ ∃ p s, l = p ++ pat ++ s := by
  induction l with
  | nil =>
    simp only [hasSub, List.isEmpty_iff]
    constructor
    · intro h
      exact ⟨[], [], by simp [h]⟩
    · rintro ⟨p, s, hps⟩
      rcases List.append_eq_nil.mp hps.symm with ⟨h1, -⟩
      rcases List.append_eq_nil.mp h1 with ⟨-, h3⟩
      exact h3

  | cons c rest ih =>
    simp only [hasSub, Bool.or_eq_true]
    constructor
    · rintro (h | h)
      · obtain ⟨t, ht⟩ := List.isPrefixOf_iff_prefix.mp h
        exact ⟨[], t, by simp [ht.symm]⟩
      · obtain ⟨p, s, hps⟩ := ih.mp h
        exact ⟨c :: p, s, by simp [hps]⟩
    · rintro ⟨p, s, hps⟩
      cases p with
      | nil =>
        left
        exact List.isPrefixOf_iff_prefix.mpr ⟨s, by simpa using hps.symm⟩
      | cons hd tl =>
        right
        simp only [List.cons_append, List.cons.injEq] at hps
        exact ih.mpr ⟨tl, s, hps.2⟩

lemma matchesB_iff_claimMatch (bufferName : List Char) (e : ExpectedDiagnosticInfo)
    (d : SMDiagnostic) : matchesB bufferName e d = true ↔ claimMatch bufferName e d := by
  simp only [matchesB, claimMatch, Bool.and_eq_true, beq_iff_eq, hasSub_iff]
  constructor
  · rintro ⟨⟨⟨h1, h2⟩, h3⟩, ⟨p, s, h4⟩⟩
    exact ⟨h2, h1, h3, p, s, h4⟩
  · rintro ⟨h2, h1, h3, p, s, h4⟩
    exact ⟨⟨⟨h1, h2⟩, h3⟩, p, s, h4⟩

lemma lineKindMatchesB_iff (bufferName : List Char) (e : ExpectedDiagnosticInfo)
    (d : SMDiagnostic) : lineKindMatchesB bufferName e d = true ↔ claimLineKind bufferName e d := by
  simp only [lineKindMatchesB, claimLineKind, Bool.and_eq_true, beq_iff_eq]
  constructor
  · rintro ⟨⟨h1, h2⟩, h3⟩
    exact ⟨h2, h1, h3⟩
  · rintro ⟨h2, h1, h3⟩
    exact ⟨⟨h1, h2⟩, h3⟩

lemma matchesB_filename (bufferName : List Char) (e : ExpectedDiagnosticInfo)
    (d : SMDiagnostic) (h : matchesB bufferName e d = true) : d.filename = bufferName := by
  simp only [matchesB, Bool.and_eq_true, beq_iff_eq] at h
  exact h.1.1.2

lemma lineKindMatchesB_filename (bufferName : List Char) (e : ExpectedDiagnosticInfo)
    (d : SMDiagnostic) (h : lineKindMatchesB bufferName e d = true) : d.filename = bufferName := by
  simp only [lineKindMatchesB, Bool.and_eq_true, beq_iff_eq] at h
  exact h.1.2

lemma eraseIdx_filter_eq (l : List SMDiagnostic) (j : Nat) (d : SMDiagnostic)
    (p : SMDiagnostic → Bool) (hd : l[j]? = some d) (hp : p d = false) :
    (l.eraseIdx j).filter p = l.filter p := by
  induction l generalizing j with
  | nil => simp at hd
  | cons c rest ih =>
    cases j with
    | zero =>
      simp only [List.getElem?_cons_zero, Option.some.injEq] at hd
      subst hd
      simp [List.eraseIdx, List.filter_cons, hp]
    | succ j' =>
      simp only [List.getElem?_cons_succ] at hd
      simp only [List.eraseIdx]
      cases hpc : p c <;> simp [List.filter_cons, hpc, ih j' hd]

lemma consumeWildcard_fst_filter (buffer bufferName : List Char)
    (e : ExpectedDiagnosticInfo) (p : SMDiagnostic → Bool)
    (hp : ∀ d, matchesB bufferName e d = true → p d = false)
    (CD : List SMDiagnostic) (errs : List Report) :
    ((consumeWildcard buffer bufferName e CD errs).1).filter p = CD.filter p := by
  induction CD, errs using consumeWildcard.induct buffer bufferName e with
  | case1 CD errs hfind =>
    rw [consumeWildcard]
    simp only [hfind]
  | case2 CD errs j hfind h2 =>
    rw [consumeWildcard]
    simp only [hfind]
    split
    · rfl
    · next d2 heq => simp [h2] at heq
  | case3 CD errs j hfind d h2 ih =>
    rw [consumeWildcard]
    simp only [hfind]
    split
    · next heq => simp [h2] at heq
    · next d2 heq =>
      rw [h2] at heq
      obtain rfl := Option.some.inj heq
      rw [ih]
      obtain ⟨d3, hd3, hpd⟩ := findIdxBy_some_elem _ _ _ hfind
      rw [h2] at hd3
      obtain rfl := Option.some.inj hd3
      exact eraseIdx_filter_eq CD j d p h2 (hp d hpd)

lemma phase1_pool_filter (buffer bufferName : List Char) (p : SMDiagnostic → Bool)
    (hp : ∀ e d, matchesB bufferName e d = true → p d = false) :
    ∀ (ED : List ExpectedDiagnosticInfo) (CD : List SMDiagnostic) (errs : List Report),
    ((phase1 buffer bufferName ED CD errs).2.1).filter p = CD.filter p := by
  intro ED
  induction ED with
  | nil => intro CD errs; rfl
  | cons e rest ih =>
    intro CD errs
    cases hm : e.mayAppear
    case true =>
      simp only [phase1, hm, if_true]
      rcases hcw : consumeWildcard buffer bufferName e CD errs with ⟨CD', errs'⟩
      have h1 := consumeWildcard_fst_filter buffer bufferName e p (hp e) CD errs
      rw [hcw] at h1
      rw [ih CD' errs', h1]
    case false =>
      simp only [phase1, hm, Bool.false_eq_true, if_false]
      cases hfind : findDiagnostic bufferName e CD with
      | none =>
        dsimp only
        exact ih CD errs
      | some j =>
        dsimp only
        cases hj : CD[j]? with
        | none =>
          dsimp only
          exact ih CD errs
        | some d =>
          dsimp only
          obtain ⟨d3, hd3, hpd⟩ := findIdxBy_some_elem _ _ _ hfind
          rw [hj] at hd3
          obtain rfl := Option.some.inj hd3
          rw [ih (CD.eraseIdx j) (errs ++ unmatchedFixitReports buffer e d)]
          exact eraseIdx_filter_eq CD j d p hj (hp e d hpd)

lemma phase2_pool_filter (bufferName : List Char) (p : SMDiagnostic → Bool)
    (hp : ∀ e d, lineKindMatchesB bufferName e d = true → p d = false) :
    ∀ (ED : List ExpectedDiagnosticInfo) (CD : List SMDiagnostic) (errs : List Report),
    ((phase2 bufferName ED CD errs).2.1).filter p = CD.filter p := by
  intro ED
  induction ED with
  | nil => intro CD errs; rfl
  | cons e rest ih =>
    intro CD errs
    simp only [phase2]
    cases hfind : findDiagLineKind bufferName e CD with
    | none =>
      dsimp only
      exact ih CD errs
    | some j =>
      dsimp only
      cases hj : CD[j]? with
      | none =>
        dsimp only
        exact ih CD errs
      | some d =>
        dsimp only
        obtain ⟨d3, hd3, hpd⟩ := findIdxBy_some_elem _ _ _ hfind
        rw [hj] at hd3
        obtain rfl := Option.some.inj hd3
        rw [ih (CD.eraseIdx j) _]
        exact eraseIdx_filter_eq CD j d p hj (hp e d hpd)

lemma phase2_nil_pool (bufferName : List Char) :
    ∀ (ED : List ExpectedDiagnosticInfo) (errs : List Report),
    phase2 bufferName ED [] errs = (ED, [], errs) := by
  intro ED
  induction ED with
  | nil => intro errs; rfl
  | cons e rest ih =>
    intro errs
    simp only [phase2]
    have hfind : findDiagLineKind bufferName e [] = none := rfl
    rw [hfind]
    dsimp only
    simp [ih errs]

lemma consumeWildcard_replicate (buffer bufferName : List Char)
    (e : ExpectedDiagnosticInfo) (d : SMDiagnostic) (hf : e.fixits = [])
    (hmatch : matchesB bufferName e d = true) :
    ∀ (m : Nat) (errs : List Report),
    consumeWildcard buffer bufferName e (List.replicate m d) errs = ([], errs) := by
  intro m
  induction m with
  | zero =>
    intro errs
    rw [consumeWildcard]
    have hfind : findDiagnostic bufferName e [] = none := rfl
    simp [hfind]
  | succ m ih =>
    intro errs
    rw [consumeWildcard]
    rw [List.replicate_succ]
    have hfind : findDiagnostic bufferName e (d :: List.replicate m d) = some 0 := by
      simp [findDiagnostic, findIdxBy, hmatch]
    simp only [hfind]
    split
    · next heq => simp at heq
    · next d2 heq =>
      simp only [List.getElem?_cons_zero, Option.some.injEq] at heq
      subst heq
      have hunm : unmatchedFixitReports buffer e d = [] := by
        simp [unmatchedFixitReports, hf]
      rw [hunm, List.append_nil]
      have herase : (d :: List.replicate m d).eraseIdx 0 = List.replicate m d := rfl
      rw [herase]
      exact ih errs

lemma phase1_replicate (buffer bufferName : List Char) (e : ExpectedDiagnosticInfo)
    (d : SMDiagnostic) (hm : e.mayAppear = false) (hf : e.fixits = [])
    (hmatch : matchesB bufferName e d = true) :
    ∀ (n m : Nat) (errs : List Report),
    phase1 buffer bufferName (List.replicate n e) (List.replicate m d) errs =
      (List.replicate (n - m) e, List.replicate (m - n) d, errs) := by
  intro n
  induction n with
  | zero =>
    intro m errs
    simp [phase1, Nat.zero_sub]
  | succ n ih =>
    intro m errs
    rw [List.replicate_succ]
    cases m with
    | zero =>
      simp only [List.replicate, phase1, hm, Bool.false_eq_true, if_false]
      have hfind : findDiagnostic bufferName e [] = none := rfl
      simp only [hfind]
      have ih0 := ih 0 errs
      simp only [List.replicate] at ih0
      rw [ih0]
      simp [Nat.zero_sub, Nat.sub_zero]
    | succ m =>
      rw [List.replicate_succ]
      simp only [phase1, hm, Bool.false_eq_true, if_false]
      have hfind : findDiagnostic bufferName e (d :: List.replicate m d) = some 0 := by
        simp [findDiagnostic, findIdxBy, hmatch]
      rw [hfind]
      simp only [List.getElem?_cons_zero]
      have hunm : unmatchedFixitReports buffer e d = [] := by
        simp [unmatchedFixitReports, hf]
      rw [hunm, List.append_nil]
      have he : (d :: List.replicate m d).eraseIdx 0 = List.replicate m d := rfl
      rw [he, ih m errs]
      simp [Nat.succ_sub_succ]

lemma sliceL_eq_of_le (l : List Char) (a b : Nat) (h : a ≤ b) :
    sliceL l a b = (l.drop a).take (b - a) := by
  simp only [sliceL]
  rw [Nat.max_eq_right h]
  by_cases ha : a ≤ l.length
  · rw [Nat.min_eq_left ha]
    by_cases hb : b ≤ l.length
    · rw [Nat.min_eq_left hb]
    · rw [Nat.min_eq_right (by omega)]
      have hlen : (l.drop a).length = l.length - a := List.length_drop a l
      rw [List.take_of_length_le (by omega), List.take_of_length_le (by omega)]
  · have hal : l.length ≤ a := by omega
    have hbl : l.length ≤ b := by omega
    rw [Nat.min_eq_right hal, Nat.min_eq_right hbl]
    rw [List.drop_length, List.drop_eq_nil_of_le hal]
    simp

lemma applyWalk_spec_eq (buffer : List Char) :
    ∀ (fixIts : List SMFixIt) (lastPos : Nat), nonOverlapB lastPos fixIts = true →
      applyWalk buffer lastPos fixIts = some (specApplyWalk buffer lastPos fixIts) := by
  intro fixIts
  induction fixIts with
  | nil => intro lastPos _; rfl
  | cons f rest ih =>
    intro lastPos h
    simp only [nonOverlapB, Bool.and_eq_true, decide_eq_true_eq] at h
    obtain ⟨h1, h2⟩ := h
    simp only [applyWalk, if_pos h1, specApplyWalk]
    rw [ih f.stop h2]
    simp [sliceL_eq_of_le buffer lastPos f.start h1]

lemma applyWalk_fatal (buffer : List Char) :
    ∀ (fixIts : List SMFixIt) (lastPos i : Nat) (f g : SMFixIt),
      fixIts[i]? = some f → fixIts[i + 1]? = some g → g.start < f.stop →
      applyWalk buffer lastPos fixIts = none := by
  intro fixIts
  induction fixIts with
  | nil => intro lastPos i f g hf _ _; simp at hf
  | cons f0 rest ih =>
    intro lastPos i f g hf hg hlt
    simp only [applyWalk]
    by_cases hle : lastPos ≤ f0.start
    · rw [if_pos hle]
      cases i with
      | zero =>
        simp only [List.getElem?_cons_zero, Option.some.injEq] at hf
        subst hf
        simp only [List.getElem?_cons_succ] at hg
        cases rest with
        | nil => simp at hg
        | cons g0 rest' =>
          simp only [List.getElem?_cons_zero, Option.some.injEq] at hg
          have hnone : applyWalk buffer f0.stop (g0 :: rest') = none := by
            simp only [applyWalk]
            rw [if_neg (by rw [hg]; omega)]
          rw [hnone]
          rfl
      | succ i' =>
        simp only [List.getElem?_cons_succ] at hf hg
        rw [ih f0.stop i' f g hf hg hlt]
        rfl
    · rw [if_neg hle]

lemma findLastOf_spec (set : List Char) :
    ∀ (l : List Char),
      (findLastOf l set = none → ∀ x ∈ l, set.contains x = false) ∧
      (∀ k, findLastOf l set = some k →
        ∃ x, l[k]? = some x ∧ set.contains x = true ∧
          ∀ j y, k < j → l[j]? = some y → set.contains y = false) := by
  intro l
  induction l with
  | nil =>
    constructor
    · intro _ x hx; simp at hx
    · intro k hk; simp [findLastOf] at hk
  | cons c rest ih =>
    constructor
    · intro hnone x hx
      simp only [findLastOf] at hnone
      cases hr : findLastOf rest set with
      | some k => rw [hr] at hnone; simp at hnone
      | none =>
        rw [hr] at hnone
        by_cases hc : set.contains c = true
        · rw [if_pos hc] at hnone; simp at hnone
        · have hc' : set.contains c = false := by
            cases hcc : set.contains c
            · rfl
            · exact absurd hcc hc
          rcases List.mem_cons.mp hx with rfl | hx'
          · exact hc'
          · exact (ih.1 hr) x hx'
    · intro k hk
      simp only [findLastOf] at hk
      cases hr : findLastOf rest set with
      | some k' =>
        rw [hr] at hk
        obtain rfl := Option.some.inj hk
        obtain ⟨x, hx, hcx, hlater⟩ := ih.2 k' hr
        refine ⟨x, by simpa using hx, hcx, ?_⟩
        intro j y hj hy
        cases j with
        | zero => omega
        | succ j' =>
          simp only [List.getElem?_cons_succ] at hy
          exact hlater j' y (by omega) hy
      | none =>
        rw [hr] at hk
        by_cases hc : set.contains c = true
        · rw [if_pos hc] at hk
          obtain rfl := Option.some.inj hk
          refine ⟨c, by simp, hc, ?_⟩
          intro j y hj hy
          cases j with
          | zero => omega
          | succ j' =>
            simp only [List.getElem?_cons_succ] at hy
            exact (ih.1 hr) y (List.getElem?_mem hy)
        · rw [if_neg hc] at hk; simp at hk

/-! ## Claims -/

/-- C1: In phase one an expectation matches a captured diagnostic if and
only if the diagnostic has an identical file identifier, an identical
resolved line number, an identical severity, and a message containing the
expectation's decoded message text as a substring (`findDiagnostic`
returns the first such pool index); the matched diagnostic is then erased
from the pool; in particular, on the spec's concrete scenario buffer a
captured message strictly extending the expected text yields zero reports
and an emptied pool. -/
theorem c1_exact_match :
    (∀ (bufferName : List Char) (e : ExpectedDiagnosticInfo) (CD : List SMDiagnostic) (j : Nat),
      findDiagnostic bufferName e CD = some j ↔
        ((∃ d, CD[j]? = some d ∧ claimMatch bufferName e d) ∧
         ∀ k, k < j → ∀ d, CD[k]? = some d → ¬ claimMatch bufferName e d)) ∧
    (∀ (buffer bufferName : List Char) (e : ExpectedDiagnosticInfo)
       (rest : List ExpectedDiagnosticInfo) (CD : List SMDiagnostic) (errs : List Report)
       (j : Nat) (d : SMDiagnostic),
      e.mayAppear = false → e.fixits = [] →
      findDiagnostic bufferName e CD = some j → CD[j]? = some d →
      phase1 buffer bufferName (e :: rest) CD errs =
        phase1 buffer bufferName rest (CD.eraseIdx j) errs) ∧
    verifyFile demoBuf demoName [demoDiagMatch] = ([], []) := by
  refine ⟨?_, ?_, ?_⟩
  · intro bufferName e CD j
    rw [findDiagnostic, findIdxBy_iff]
    constructor
    · rintro ⟨⟨d, hd, hp⟩, hmin⟩
      refine ⟨⟨d, hd, (matchesB_iff_claimMatch _ _ _).mp hp⟩, ?_⟩
      intro k hk d' hd' hc
      have h2 := (matchesB_iff_claimMatch bufferName e d').mpr hc
      rw [hmin k hk d' hd'] at h2
      exact Bool.false_ne_true h2
    · rintro ⟨⟨d, hd, hp⟩, hmin⟩
      refine ⟨⟨d, hd, (matchesB_iff_claimMatch _ _ _).mpr hp⟩, ?_⟩
      intro k hk d' hd'
      cases hpc : matchesB bufferName e d' with
      | false => rfl
      | true =>
        exact absurd ((matchesB_iff_claimMatch _ _ _).mp hpc) (hmin k hk d' hd')
  · intro buffer bufferName e rest CD errs j d hm hf hfind hd
    simp only [phase1, hm, Bool.false_eq_true, if_false]
    rw [hfind]
    simp only [hd]
    have hunm : unmatchedFixitReports buffer e d = [] := by
      simp [unmatchedFixitReports, hf]
    rw [hunm, List.append_nil]
  · rfl

/-- C1 witness: the scenario diagnostic is found at pool index zero, and
phase one consumes both it and the expectation. -/
theorem c1_witness :
    findDiagnostic demoName demoExp [demoDiagMatch] = some 0 ∧
    phase1 demoBuf demoName [demoExp] [demoDiagMatch] [] = phase1 demoBuf demoName [] [] [] := by
  constructor
  · exact (c1_exact_match.1 demoName demoExp [demoDiagMatch] 0).mpr
      ⟨⟨demoDiagMatch, rfl, rfl, by decide, rfl, [], (": Int vs String".data), by decide⟩,
       fun k hk => absurd hk (Nat.not_lt_zero k)⟩
  · exact c1_exact_match.2.1 demoBuf demoName demoExp [] [demoDiagMatch] [] 0 demoDiagMatch
      rfl rfl (by decide) rfl

/-- C2: a still-unsatisfied expectation whose file, line and severity
match a pool entry (message ignored; the search returns the first such
index) yields exactly one "incorrect message found" report anchored at the
message-pattern span, carrying a fix-it replacing that span with the
actual message, and both the entry and the expectation are removed; on the
spec's concrete scenario the fix-it replaces the span with
"unrelated issue". -/
theorem c2_wrong_message :
    (∀ (bufferName : List Char) (e : ExpectedDiagnosticInfo) (CD : List SMDiagnostic) (j : Nat),
      findDiagLineKind bufferName e CD = some j ↔
        ((∃ d, CD[j]? = some d ∧ claimLineKind bufferName e d) ∧
         ∀ k, k < j → ∀ d, CD[k]? = some d → ¬ claimLineKind bufferName e d)) ∧
    (∀ (bufferName : List Char) (e : ExpectedDiagnosticInfo) (CD : List SMDiagnostic)
       (errs : List Report) (j : Nat) (d : SMDiagnostic),
      findDiagLineKind bufferName e CD = some j → CD[j]? = some d →
      phase2 bufferName [e] CD errs =
        ([], CD.eraseIdx j,
         errs ++ [⟨e.messageRangeStart, ("incorrect message found".data),
                   [⟨e.messageRangeStart, e.messageRangeEnd, d.message⟩]⟩])) ∧
    verifyFile demoBuf demoName [demoDiagWrong] =
      ([⟨30, ("incorrect message found".data), [⟨30, 43, ("unrelated issue".data)⟩]⟩], []) := by
  refine ⟨?_, ?_, ?_⟩
  · intro bufferName e CD j
    rw [findDiagLineKind, findIdxBy_iff]
    constructor
    · rintro ⟨⟨d, hd, hp⟩, hmin⟩
      refine ⟨⟨d, hd, (lineKindMatchesB_iff _ _ _).mp hp⟩, ?_⟩
      intro k hk d' hd' hc
      have h2 := (lineKindMatchesB_iff bufferName e d').mpr hc
      rw [hmin k hk d' hd'] at h2
      exact Bool.false_ne_true h2
    · rintro ⟨⟨d, hd, hp⟩, hmin⟩
      refine ⟨⟨d, hd, (lineKindMatchesB_iff _ _ _).mpr hp⟩, ?_⟩
      intro k hk d' hd'
      cases hpc : lineKindMatchesB bufferName e d' with
      | false => rfl
      | true =>
        exact absurd ((lineKindMatchesB_iff _ _ _).mp hpc) (hmin k hk d' hd')
  · intro bufferName e CD errs j d hfind hd
    simp only [phase2]
    rw [hfind]
    simp only [hd]
  · rfl

/-- C2 witness: phase two on the scenario expectation and the unrelated
diagnostic produces the single report with its annotation-updating
fix-it. -/
theorem c2_witness :
    phase2 demoName [demoExp] [demoDiagWrong] [] =
      ([], [],
       [⟨demoExp.messageRangeStart, ("incorrect message found".data),
         [⟨demoExp.messageRangeStart, demoExp.messageRangeEnd, demoDiagWrong.message⟩]⟩]) := by
  exact c2_wrong_message.2.1 demoName demoExp [demoDiagWrong] [] 0 demoDiagWrong (by decide) rfl

/-- C3: an explicit multiplicity of three makes the scanner push three
structurally identical copies of the expectation, and for every count `n`,
matching `n` copies against exactly `n` matching captured diagnostics
yields zero reports, against `n + 1` yields exactly one
"unexpected ... produced" report, and against `n - 1` yields exactly one
"expected ... not produced" report. -/
theorem c3_multiplicity :
    (scanAnnotations countBuf = ([], List.replicate 3 countExp)) ∧
    ∀ (buffer bufferName : List Char) (e : ExpectedDiagnosticInfo) (d : SMDiagnostic) (n : Nat),
      e.mayAppear = false → e.fixits = [] → matchesB bufferName e d = true →
      (matchAndReport buffer bufferName (List.replicate n e) (List.replicate n d) [] = ([], [])) ∧
      (matchAndReport buffer bufferName (List.replicate n e) (List.replicate (n + 1) d) [] =
        ([unexpectedReport d], [d])) ∧
      (1 ≤ n → matchAndReport buffer bufferName (List.replicate n e) (List.replicate (n - 1) d) [] =
        ([notProducedReport e], [])) := by
  constructor
  · rfl
  · intro buffer bufferName e d n hm hf hmatch
    have hname := matchesB_filename bufferName e d hmatch
    refine ⟨?_, ?_, ?_⟩
    · simp only [matchAndReport]
      rw [phase1_replicate buffer bufferName e d hm hf hmatch n n []]
      simp only [Nat.sub_self, List.replicate]
      rfl
    · simp only [matchAndReport]
      rw [phase1_replicate buffer bufferName e d hm hf hmatch n (n + 1) []]
      have e1 : n - (n + 1) = 0 := by omega
      have e2 : n + 1 - n = 1 := by omega
      rw [e1, e2]
      simp only [List.replicate]
      simp [phase2, sortReports, List.insertionSort, List.orderedInsert, hname,
        unexpectedReport]
    · intro hn
      simp only [matchAndReport]
      rw [phase1_replicate buffer bufferName e d hm hf hmatch n (n - 1) []]
      have e1 : n - (n - 1) = 1 := by omega
      have e2 : n - 1 - n = 0 := by omega
      rw [e1, e2]
      simp only [List.replicate]
      rw [phase2_nil_pool bufferName [e] []]
      simp [sortReports, List.insertionSort, List.orderedInsert, notProducedReport]

/-- C3 witness: two copies against two matching diagnostics yield zero
reports and an emptied pool. -/
theorem c3_witness :
    matchAndReport [] demoName (List.replicate 2 countExp)
      (List.replicate 2 ⟨demoName, 1, .error, ("undeclared use of x".data), 9, []⟩) [] =
      ([], []) := by
  exact ((c3_multiplicity.2 [] demoName countExp
    ⟨demoName, 1, .error, ("undeclared use of x".data), 9, []⟩ 2) rfl rfl (by decide)).1

/-- C4: a wildcard expectation yields zero reports however many matching
captured diagnostics exist: every match consumes a pool entry while the
expectation stays eligible, and with no match it is dropped silently, so
for every `m` the matcher returns no reports and an emptied pool. -/
theorem c4_wildcard :
    ∀ (buffer bufferName : List Char) (e : ExpectedDiagnosticInfo) (d : SMDiagnostic) (m : Nat),
      e.mayAppear = true → e.fixits = [] → matchesB bufferName e d = true →
      matchAndReport buffer bufferName [e] (List.replicate m d) [] = ([], []) := by
  intro buffer bufferName e d m hm hf hmatch
  simp only [matchAndReport]
  have hcw := consumeWildcard_replicate buffer bufferName e d hf hmatch m []
  have h1 : phase1 buffer bufferName [e] (List.replicate m d) [] = ([], [], []) := by
    simp only [phase1, hm, if_true, hcw]
  rw [h1]
  rfl

/-- C4 witness: a wildcard expectation against three matching diagnostics
yields zero reports. -/
theorem c4_witness :
    matchAndReport demoBuf demoName [wildExp] (List.replicate 3 demoDiagMatch) [] = ([], []) := by
  exact c4_wildcard demoBuf demoName wildExp demoDiagMatch 3 rfl rfl (by decide)

/-- C5: with at least one fix-it and no overlap, the fix applier writes
exactly the buffer described by the claim's cursor walk over the fix-its
sorted by start offset, and with no fix-its at all it leaves the backing
file untouched. -/
theorem c5_fix_applier :
    ∀ (buffer : List Char) (diags : List Report),
      (collectFixIts diags = [] → autoApplyFixes buffer diags = .untouched) ∧
      (collectFixIts diags ≠ [] →
        nonOverlapB 0 (sortFixIts (collectFixIts diags)) = true →
        autoApplyFixes buffer diags =
          .written (specApplyWalk buffer 0 (sortFixIts (collectFixIts diags)))) := by
  intro buffer diags
  constructor
  · intro h
    simp [autoApplyFixes, h]
  · intro hne hno
    have hie : (collectFixIts diags).isEmpty = false := by
      cases hc : collectFixIts diags with
      | nil => exact absurd hc hne
      | cons a l => rfl
    simp only [autoApplyFixes, hie, Bool.false_eq_true, if_false]
    rw [applyWalk_spec_eq buffer _ 0 hno]

/-- C5 witness: one concrete fix-it replacing bytes one to three of
"hello" produces the walked rewrite. -/
theorem c5_witness :
    autoApplyFixes ("hello".data) applyDemoDiags =
      .written (specApplyWalk ("hello".data) 0 (sortFixIts (collectFixIts applyDemoDiags))) := by
  exact (c5_fix_applier ("hello".data) applyDemoDiags).2 (by decide) (by decide)

/-- C6: whenever the sorted fix-it list contains an adjacent pair whose
second member starts before the first ends, the fix applier hits the fatal
internal-consistency condition and produces no rewritten output. -/
theorem c6_overlap_fatal :
    ∀ (buffer : List Char) (diags : List Report) (i : Nat) (f g : SMFixIt),
      (sortFixIts (collectFixIts diags))[i]? = some f →
      (sortFixIts (collectFixIts diags))[i + 1]? = some g →
      g.start < f.stop →
      autoApplyFixes buffer diags = .fatal := by
  intro buffer diags i f g hf hg hlt
  have hne : collectFixIts diags ≠ [] := by
    intro h
    rw [h] at hf
    simp [sortFixIts, List.insertionSort] at hf
  have hie : (collectFixIts diags).isEmpty = false := by
    cases hc : collectFixIts diags with
    | nil => exact absurd hc hne
    | cons a l => rfl
  simp only [autoApplyFixes, hie, Bool.false_eq_true, if_false]
  rw [applyWalk_fatal buffer _ 0 i f g hf hg hlt]

/-- C6 witness: two overlapping fix-its trigger the fatal outcome. -/
theorem c6_witness :
    autoApplyFixes ("hello world".data) overlapDemoDiags = .fatal := by
  exact c6_overlap_fatal ("hello world".data) overlapDemoDiags 0
    ⟨0, 5, ("A".data)⟩ ⟨3, 6, ("B".data)⟩ (by decide) (by decide) (by decide)

/-- C7: for an offset within the buffer, the column mapper returns the
offset itself when no newline or carriage return precedes it, and
otherwise the offset minus the index of the most recent preceding newline
or carriage return. -/
theorem c7_column_number :
    ∀ (buffer : List Char) (off : Nat), off ≤ buffer.length →
      ((∀ k, k < off → ¬(buffer[k]? = some '\n' ∨ buffer[k]? = some '\r')) →
        getColumnNumber buffer off = off) ∧
      (∀ k, k < off → (buffer[k]? = some '\n' ∨ buffer[k]? = some '\r') →
        (∀ j, k < j → j < off → ¬(buffer[j]? = some '\n' ∨ buffer[j]? = some '\r')) →
        getColumnNumber buffer off = off - k) := by
  intro buffer off hoff
  have hlen : (buffer.take off).length = off := by
    rw [List.length_take]; omega
  have hget : ∀ k, k < off → (buffer.take off)[k]? = buffer[k]? := by
    intro k hk
    rw [List.getElem?_take]
    simp [hk]
  have hcontains : ∀ x : Char,
      (['\r', '\n'] : List Char).contains x = true ↔ (x = '\n' ∨ x = '\r') := by
    intro x
    simp [List.contains]
    tauto
  constructor
  · intro hnone
    cases hfl : findLastOf (buffer.take off) ['\r', '\n'] with
    | none => simp [getColumnNumber, hfl, hlen]
    | some k =>
      obtain ⟨x, hx, hcx, -⟩ := (findLastOf_spec _ _).2 k hfl
      have hk : k < off := by
        have hb := (List.getElem?_eq_some.mp hx).1
        omega
      rw [hget k hk] at hx
      rcases (hcontains x).mp hcx with rfl | rfl
      · exact absurd (Or.inl hx) (hnone k hk)
      · exact absurd (Or.inr hx) (hnone k hk)
  · intro k hk hnl hnolater
    cases hfl : findLastOf (buffer.take off) ['\r', '\n'] with
    | none =>
      have hall := (findLastOf_spec _ _).1 hfl
      rcases hnl with h | h
      · have hmem : '\n' ∈ buffer.take off := List.getElem?_mem (by rw [hget k hk]; exact h)
        have hcm := hall '\n' hmem
        simp [List.contains] at hcm
      · have hmem : '\r' ∈ buffer.take off := List.getElem?_mem (by rw [hget k hk]; exact h)
        have hcm := hall '\r' hmem
        simp [List.contains] at hcm
    | some k' =>
      obtain ⟨x, hx, hcx, hlater⟩ := (findLastOf_spec _ _).2 k' hfl
      have hk' : k' < off := by
        have hb := (List.getElem?_eq_some.mp hx).1
        omega
      rcases Nat.lt_trichotomy k' k with hlt | heq | hgt
      · exfalso
        rcases hnl with h | h
        · have hcm := hlater k '\n' hlt (by rw [hget k hk]; exact h)
          simp [List.contains] at hcm
        · have hcm := hlater k '\r' hlt (by rw [hget k hk]; exact h)
          simp [List.contains] at hcm
      · subst heq
        simp [getColumnNumber, hfl, hlen]
      · exfalso
        rw [hget k' hk'] at hx
        rcases (hcontains x).mp hcx with rfl | rfl
        · exact absurd (Or.inl hx) (hnolater k' hgt hk')
        · exact absurd (Or.inr hx) (hnolater k' hgt hk')

/-- C7 witness: in "ab\ncd" the offset four maps to column two, and the
offset two on the first line maps to two. -/
theorem c7_witness :
    getColumnNumber ("ab\ncd".data) 4 = 2 ∧ getColumnNumber ("ab\ncd".data) 2 = 2 := by
  constructor
  · refine (c7_column_number ("ab\ncd".data) 4 (by decide)).2 2 (by decide) (by decide) ?_
    intro j h1 h2
    interval_cases j
    decide
  · refine (c7_column_number ("ab\ncd".data) 2 (by decide)).1 ?_
    intro k hk
    interval_cases k <;> decide

/-- C8 counterexample: in `contFixitBuf` the first annotation's fix-it
clause ends at offset 35 and the remaining text (space, backslash,
newline) begins with a backslash after whitespace, yet the scanner leaves
it no continuation anchor (`newCont = 0`) and the second annotation
resolves to its own line two instead of inheriting line one — the claim
predicts both resolve to line one. -/
theorem c8_counterexample :
    ((scanAnnotations contFixitBuf).2.map (fun e => e.lineNo) = [1, 2]) ∧
    ((scanAnnotations contFixitBuf).2.map (fun e => e.fixits.length) = [1, 0]) ∧
    sliceL contFixitBuf 35 38 = [' ', '\\', '\n'] ∧
    (processMatch contFixitBuf 5 0).newCont = 0 := by
  refine ⟨rfl, rfl, rfl, rfl⟩

/-- C8 amended: the continuation check happens immediately after the
message's closing braces, before any fix-it clause is scanned: a backslash
(after horizontal whitespace) right after the message anchors the next
annotation to this annotation's resolved line, both across lines and for
two annotations on one physical line, while a backslash appearing only
after a fix-it clause creates no anchor. -/
theorem c8_continuation_amended :
    ((scanAnnotations contPlainBuf).2.map (fun e => e.lineNo) = [1, 1]) ∧
    ((processMatch contPlainBuf 5 0).newCont = 1) ∧
    ((scanAnnotations contSameLineBuf).2.map (fun e => e.lineNo) = [1, 1]) ∧
    ((scanAnnotations contFixitBuf).2.map (fun e => e.lineNo) = [1, 2]) ∧
    ((processMatch contFixitBuf 5 0).newCont = 0) := by
  refine ⟨rfl, rfl, rfl, rfl, rfl⟩

/-- C9: a verification pass leaves pool entries addressed to other buffers
untouched (their filtered sublist is unchanged), and every remaining pool
entry addressed to the verified buffer has produced an
"unexpected ... produced" report among the returned reports. -/
theorem c9_frame_other_buffers :
    ∀ (buffer bufferName : List Char) (pool : List SMDiagnostic),
      ((verifyFile buffer bufferName pool).2.filter (fun d => !(d.filename == bufferName)) =
        pool.filter (fun d => !(d.filename == bufferName))) ∧
      (∀ d, d ∈ (verifyFile buffer bufferName pool).2 → d.filename = bufferName →
        unexpectedReport d ∈ (verifyFile buffer bufferName pool).1) := by
  intro buffer bufferName pool
  have hp1 : ∀ e d, matchesB bufferName e d = true →
      (fun d => !(d.filename == bufferName)) d = false := by
    intro e d h
    simp [matchesB_filename bufferName e d h]
  have hp2 : ∀ e d, lineKindMatchesB bufferName e d = true →
      (fun d => !(d.filename == bufferName)) d = false := by
    intro e d h
    simp [lineKindMatchesB_filename bufferName e d h]
  constructor
  · simp only [verifyFile, matchAndReport]
    rw [phase2_pool_filter bufferName _ hp2, phase1_pool_filter buffer bufferName _ hp1]
  · intro d hd hname
    simp only [verifyFile, matchAndReport] at hd ⊢
    simp only [sortReports]
    refine (List.perm_insertionSort _ _).mem_iff.mpr ?_
    apply List.mem_append_right
    exact List.mem_map_of_mem _ (List.mem_filter.mpr ⟨hd, by simp [hname]⟩)

/-- C9 witness: with one unclaimed diagnostic for the verified buffer and
one for another buffer, the former's "unexpected" report is among the
returned reports. -/
theorem c9_witness :
    unexpectedReport frameDiagHere ∈
      (verifyFile [] ("a.swift".data) [frameDiagHere, frameDiagOther]).1 := by
  exact (c9_frame_other_buffers [] ("a.swift".data) [frameDiagHere, frameDiagOther]).2
    frameDiagHere (by decide) rfl

/-- C10: an annotation whose multiplicity clause parses to the explicit
integer zero makes the scanner emit exactly the
"expected positive match count" malformed-annotation report, push no
expectation, and leave the continuation state unchanged. -/
theorem c10_zero_count :
    ∀ (buffer : List Char) (m prevCont kwLen q1 t q2 t2 : Nat) (kind : DiagKind) (off : Int),
      parseSeverity (buffer.drop m) = some (kind, kwLen) →
      q1 = m + kwLen + idxNotOf (buffer.drop (m + kwLen)) hwsChars →
      findSub (buffer.drop q1) ("\x7b\x7b".data) = some t →
      parseOffsetClause buffer q1 t = .ok q2 t2 off →
      t2 > 0 →
      parseUInt32 (trimFull (sliceL (buffer.drop q2) 0 t2)) = some 0 →
      processMatch buffer m prevCont =
        ⟨[⟨q2, ("expected positive match count before '\x7b\x7b'".data), []⟩], [], prevCont⟩ := by
  intro buffer m prevCont kwLen q1 t q2 t2 kind off hsev hq1 hfind hoff ht2 hzero
  subst hq1
  simp only [processMatch, hsev, hfind, hoff]
  simp only [parseCountClause, if_pos ht2]
  by_cases hstar : trimFull (sliceL (buffer.drop q2) 0 t2) = ['*']
  · rw [hstar] at hzero
    exact absurd hzero (by decide)
  · rw [if_neg hstar]
    simp only [hzero]

/-- C10 witness: the concrete zero-count buffer produces exactly the
malformed-annotation report and no expectation. -/
theorem c10_witness :
    processMatch zeroCountBuf 5 0 =
      ⟨[⟨20, ("expected positive match count before '\x7b\x7b'".data), []⟩], [], 0⟩ := by
  exact c10_zero_count zeroCountBuf 5 0 14 20 2 20 2 .error 0 (by decide) (by decide)
    (by decide) (by decide) (by decide) (by decide)

end DV
